import Mathlib

set_option maxHeartbeats 1000000

/-!
Verification development for the StudyView3D core document/model layer.

The JavaScript sources embedded here are:
* `Document` (manifest wrapper: constructor indices, path resolution,
  sub-item search, message aggregation), from the unnamed Document module;
* `Model` (2-D payload: page-to-model transform with the viewport-matrix
  repair heuristic, clip decoding and point-in-clip queries), from the
  unnamed Model module.

Modelling conventions:
* JavaScript strings are lists of characters (`JStr`); the relevant string
  methods (`indexOf`, `lastIndexOf`, `substr`, `replace`) are embedded with
  their JavaScript semantics, including the `-1` not-found sentinel and the
  negative-start clamping of `substr`.
* Manifest nodes are rose trees whose scalar fields are an association list
  of JavaScript values (`JVal`); field access mirrors dynamic property
  lookup, with `none` playing the role of `undefined`.
* Numbers are rationals: the embedded code only adds, multiplies, divides
  and compares, and every claim is settled on inputs where double-precision
  evaluation is exact in the compared positions.
* For the transform claims, the 16-element transform arrays live in an
  explicit array store (`Store`), so that the copy taken by `slice()` and
  the in-place mutation done by `repairViewportMatrix` are distinguishable
  from operations on the stored original.
-/

namespace StudyView

attribute [local semireducible] Rat.mul Rat.add Rat.sub Rat.inv

/-- JavaScript strings are modelled as lists of characters. -/
abbrev JStr := List Char

/-- Conversion from a Lean string literal to the JS string model. -/
def js (s : String) : JStr := s.data

/-- Auxiliary scan for `String.prototype.indexOf`: first index at or after
`i` where `pat` occurs in the remaining suffix. -/
def idxOfAux (pat : JStr) : JStr → Nat → Option Nat
  | [], i => if pat.isPrefixOf [] then some i else none
  | c :: t, i =>
    if pat.isPrefixOf (c :: t) then some i else idxOfAux pat t (i + 1)

/-- JavaScript `s.indexOf(pat)`: index of the first occurrence, `-1` if
absent. -/
def jsIndexOf (s pat : JStr) : Int :=
  match idxOfAux pat s 0 with
  | some i => (i : Int)
  | none => -1

/-- Auxiliary scan for `String.prototype.lastIndexOf`: last index at or
after `i` where `pat` occurs in the remaining suffix. -/
def lastIdxAux (pat : JStr) : JStr → Nat → Option Nat
  | [], i => if pat.isPrefixOf [] then some i else none
  | c :: t, i =>
    match lastIdxAux pat t (i + 1) with
    | some j => some j
    | none => if pat.isPrefixOf (c :: t) then some i else none

/-- JavaScript `s.lastIndexOf(pat)`: index of the last occurrence, `-1` if
absent. -/
def jsLastIndexOf (s pat : JStr) : Int :=
  match lastIdxAux pat s 0 with
  | some i => (i : Int)
  | none => -1

/-- JavaScript `s.substr(start)` for a possibly negative `start`: a
negative start counts from the end of the string (clamped at 0). -/
def jsSubstrFrom (s : JStr) (start : Int) : JStr :=
  s.drop (if start < 0 then ((s.length : Int) + start).toNat else start.toNat)

/-- JavaScript `s.substr(0, len)` for a possibly negative `len`: a
non-positive length yields the empty string. -/
def jsSubstrTake (s : JStr) (len : Int) : JStr :=
  s.take len.toNat

/-- JavaScript `s.replace(pat, repl)` for string patterns: only the first
occurrence is replaced; an absent pattern leaves the string unchanged. -/
def jsReplaceFirst (s pat repl : JStr) : JStr :=
  let i := jsIndexOf s pat
  if i < 0 then s
  else s.take i.toNat ++ repl ++ s.drop (i.toNat + pat.length)

/-- Scalar JavaScript values occurring in manifest node fields: strings,
numbers, and flat numeric arrays (such as `resolution`). -/
inductive JVal where
  | str : JStr → JVal
  | num : ℚ → JVal
  | arr : List ℚ → JVal
deriving DecidableEq, Repr

/-- A manifest node: scalar fields as an association list, the `messages`
array, and the ordered `children` array.  The `parent` back-reference of
the JavaScript structure is not stored; upward walks are modelled by
explicit ancestor chains. -/
inductive Item where
  | node : List (String × JVal) → List JStr → List Item → Item

/-- Scalar field access, `none` playing the role of `undefined`. -/
def getField : Item → String → Option JVal
  | .node fields _ _, k => fields.lookup k

/-- The `children` array of a node. -/
def childrenOf : Item → List Item
  | .node _ _ cs => cs

/-- The `messages` array of a node (empty when absent). -/
def messagesOf : Item → List JStr
  | .node _ ms _ => ms

/-- String-typed field access (`none` when absent or not a string). -/
def getStr (it : Item) (k : String) : Option JStr :=
  match getField it k with
  | some (.str s) => some s
  | _ => none

/-- Numeric field access (`none` when absent or not a number). -/
def getNum (it : Item) (k : String) : Option ℚ :=
  match getField it k with
  | some (.num q) => some q
  | _ => none

/-- Numeric-array field access (`none` when absent or not an array). -/
def getArr (it : Item) (k : String) : Option (List ℚ) :=
  match getField it k with
  | some (.arr l) => some l
  | _ => none

/-- Structural induction over manifest nodes with an inductive hypothesis
for every child. -/
theorem item_induction (P : Item → Prop)
    (h : ∀ fields msgs cs, (∀ c ∈ cs, P c) → P (.node fields msgs cs)) :
    ∀ it, P it
  | .node fields msgs cs =>
    h fields msgs cs (fun c hc => item_induction P h c)
termination_by it => sizeOf it
decreasing_by
  simp only [Item.node.sizeOf_spec]
  have := List.sizeOf_lt_of_mem hc
  omega

/-- Filter-match test of `Document.getSubItemsWithProperties`: a node
matches iff every filter key is present on the node with a strictly equal
value (`!(p in item) || (properties[p] !== item[p])` fails for every `p`). -/
def hasProperties (props : List (String × JVal)) (it : Item) : Bool :=
  props.all fun kv => getField it kv.1 == some kv.2

mutual

/-- Body of the static `Document.getSubItemsWithProperties` for a non-null
node: iterate over the children, pushing each matching child, and, when
`recursive`, splicing the child's own recursive results right after it. -/
def getSubItems (props : List (String × JVal)) (recursive : Bool) : Item → List Item
  | .node _ _ cs => getSubItemsList props recursive cs

/-- The child loop of `Document.getSubItemsWithProperties`. -/
def getSubItemsList (props : List (String × JVal)) (recursive : Bool) :
    List Item → List Item
  | [] => []
  | c :: rest =>
    (if hasProperties props c then [c] else []) ++
      (if recursive then getSubItems props recursive c else []) ++
      getSubItemsList props recursive rest

end

/-- Top-level `Document.getSubItemsWithProperties`, with the JavaScript
null argument modelled by `Option`: a null item yields `[]`. -/
def getSubItemsWithProperties (it : Option Item) (props : List (String × JVal))
    (recursive : Bool) : List Item :=
  match it with
  | none => []
  | some n => getSubItems props recursive n

/-- Pre-order listing of a subtree: the node itself, then each child's
subtree in order. -/
def preorder : Item → List Item
  | .node fields msgs cs =>
    .node fields msgs cs :: (cs.attach.map fun c => preorder c.1).flatten
termination_by it => sizeOf it
decreasing_by
  simp only [Item.node.sizeOf_spec]
  have := List.sizeOf_lt_of_mem c.2
  omega

/-- Pre-order listing of the proper subtree of a node (the node itself
excluded): the concatenation of its children's pre-orders. -/
def properPreorder (it : Item) : List Item :=
  ((childrenOf it).attach.map fun c => preorder c.1).flatten

theorem preorder_node (fields : List (String × JVal)) (msgs : List JStr)
    (cs : List Item) :
    preorder (.node fields msgs cs) =
      .node fields msgs cs :: (cs.map preorder).flatten := by
  rw [preorder]
  congr 1
  simp [List.attach_map_coe]

theorem properPreorder_node (fields : List (String × JVal)) (msgs : List JStr)
    (cs : List Item) :
    properPreorder (.node fields msgs cs) = (cs.map preorder).flatten := by
  rw [properPreorder]
  simp [childrenOf, List.attach_map_coe]

theorem getSubItemsList_eq_filter (props : List (String × JVal))
    (l : List Item)
    (ih : ∀ c ∈ l, getSubItems props true c =
      (properPreorder c).filter (hasProperties props)) :
    getSubItemsList props true l =
      ((l.map preorder).flatten).filter (hasProperties props) := by
  induction l with
  | nil => simp [getSubItemsList]
  | cons c rest ihrest =>
    have hc := ih c (List.mem_cons_self c rest)
    have hrest := ihrest (fun x hx => ih x (List.mem_cons_of_mem c hx))
    cases c with
    | node f m cs =>
      rw [getSubItemsList, hrest, hc, properPreorder_node]
      rw [List.map_cons, preorder_node, List.flatten_cons, List.filter_append,
        List.filter_cons]
      by_cases h : hasProperties props (.node f m cs) <;>
        simp [h, List.append_assoc]

/-- Characterisation of the recursive search: for every node, the search
over its subtree returns exactly the pre-order matches of the proper
subtree. -/
theorem getSubItems_eq_filter (props : List (String × JVal)) (it : Item) :
    getSubItems props true it =
      (properPreorder it).filter (hasProperties props) := by
  induction it using item_induction with
  | h fields msgs cs ih =>
    rw [getSubItems, properPreorder_node]
    exact getSubItemsList_eq_filter props cs ih

/-- C7: `Document.getSubItemsWithProperties(n, f, true)` returns exactly the
nodes of `n`'s proper subtree (excluding `n` itself) on which every filter
key is present with a strictly equal value, in pre-order (each direct child
immediately followed by its own subtree's matches, siblings in order), and
returns `[]` for a null node; childless nodes give the empty list since
their proper pre-order is empty. -/
theorem c7_subitems_recursive_preorder (n : Item) (props : List (String × JVal)) :
    getSubItemsWithProperties (some n) props true =
        (properPreorder n).filter (hasProperties props) ∧
      getSubItemsWithProperties none props true = [] := by
  constructor
  · exact getSubItems_eq_filter props n
  · rfl

/-- The document state relevant to path resolution: the manifest root, the
document's source path, and the ambient configuration read by
`Document.prototype.getFullPath` (the process-wide offline flag, the
already-decoded offline resource root, the viewing-service base URL) plus
the storage-system prefix token `ViewingService.OSS_PREFIX` used during
construction.  The two URL constants and the OSS token are defined outside
the two source files, so they are carried as unconstrained data. -/
structure Doc where
  root : Item
  myPath : JStr
  offline : Bool
  offlineResDecoded : JStr
  viewingUrl : JStr
  ossToken : JStr

/-- `Document.prototype.getFullPath`: the four-way urn rewrite.  The
JavaScript falsiness test `!urn` is modelled by emptiness (`null` and the
empty string are conflated, both being returned unchanged). -/
def getFullPath (doc : Doc) (urn : JStr) : JStr :=
  if urn = [] then urn
  else if doc.offline then
    doc.offlineResDecoded ++ jsSubstrFrom urn (jsIndexOf urn (js "/"))
  else if jsIndexOf urn (js "urn") = 0 then
    doc.viewingUrl ++ js "/items/" ++ urn
  else if jsIndexOf urn (js "$file$") = 0 ∧ jsIndexOf doc.myPath (js "/bubble.json") ≠ -1 then
    jsReplaceFirst doc.myPath (js "/bubble.json") [] ++ jsReplaceFirst urn (js "$file$") []
  else urn

/-- Spec-side occurrence test: whether `pat` occurs contiguously inside a
string. -/
def occursIn (pat : JStr) : JStr → Bool
  | [] => pat.isPrefixOf []
  | c :: t => pat.isPrefixOf (c :: t) || occursIn pat t

/-- The C6 claim transcribed from the spec's words: rule (2) replaces
everything before the first separator (hence the whole urn when it has no
separator), and rule (4) requires the source path to END in the canonical
manifest filename, the marker being replaced by the document's directory
(the path with the trailing manifest component removed). -/
def resolveFullPathClaim (doc : Doc) (urn : JStr) : JStr :=
  if urn = [] then urn
  else if doc.offline then
    doc.offlineResDecoded ++
      (if ('/') ∈ urn then urn.drop (urn.findIdx (fun c => c == '/')) else [])
  else if (js "urn").isPrefixOf urn then
    doc.viewingUrl ++ js "/items/" ++ urn
  else if (js "$file$").isPrefixOf urn ∧ (js "/bubble.json").isSuffixOf doc.myPath then
    doc.myPath.take (doc.myPath.length - (js "/bubble.json").length) ++
      urn.drop (js "$file$").length
  else urn

/-- The amended C6 behaviour: like the claim, except that in rule (2) a urn
without a separator keeps only its last character after the substituted
local root (the JavaScript `substr(indexOf)` artifact), and rule (4) fires
whenever the source path merely CONTAINS the canonical manifest path
component, the marker being replaced by the path with the first occurrence
of that component removed. -/
def resolveFullPathAmended (doc : Doc) (urn : JStr) : JStr :=
  if urn = [] then urn
  else if doc.offline then
    doc.offlineResDecoded ++
      (if ('/') ∈ urn then urn.drop (urn.findIdx (fun c => c == '/'))
       else urn.drop (urn.length - 1))
  else if (js "urn").isPrefixOf urn then
    doc.viewingUrl ++ js "/items/" ++ urn
  else if (js "$file$").isPrefixOf urn ∧ occursIn (js "/bubble.json") doc.myPath then
    jsReplaceFirst doc.myPath (js "/bubble.json") [] ++ urn.drop (js "$file$").length
  else urn

theorem idxOfAux_ge (pat : JStr) :
    ∀ (s : JStr) (i j : Nat), idxOfAux pat s i = some j → i ≤ j := by
  intro s
  induction s with
  | nil =>
    intro i j h
    simp only [idxOfAux] at h
    split at h
    · injection h with h; omega
    · cases h
  | cons c t ih =>
    intro i j h
    simp only [idxOfAux] at h
    split at h
    · injection h with h; omega
    · have := ih (i + 1) j h; omega

theorem idxOfAux_zero_eq_some_zero_iff (pat s : JStr) :
    idxOfAux pat s 0 = some 0 ↔ pat.isPrefixOf s = true := by
  constructor
  · intro h
    cases s with
    | nil =>
      simp only [idxOfAux] at h
      by_cases hp : pat.isPrefixOf ([] : JStr) = true
      · exact hp
      · rw [if_neg hp] at h; cases h
    | cons c t =>
      simp only [idxOfAux] at h
      by_cases hp : pat.isPrefixOf (c :: t) = true
      · exact hp
      · rw [if_neg hp] at h
        have := idxOfAux_ge pat t 1 0 h
        omega
  · intro h
    cases s with
    | nil => simp only [idxOfAux]; rw [if_pos h]
    | cons c t => simp only [idxOfAux]; rw [if_pos h]

theorem jsIndexOf_eq_zero_iff (s pat : JStr) :
    jsIndexOf s pat = 0 ↔ pat.isPrefixOf s = true := by
  rw [jsIndexOf, ← idxOfAux_zero_eq_some_zero_iff pat s]
  cases hx : idxOfAux pat s 0 with
  | none => simp
  | some j => simp

theorem idxOfAux_isSome_eq_occursIn (pat : JStr) :
    ∀ (s : JStr) (i : Nat), (idxOfAux pat s i).isSome = occursIn pat s := by
  intro s
  induction s with
  | nil =>
    intro i
    simp only [idxOfAux, occursIn]
    by_cases h : pat.isPrefixOf ([] : JStr) = true
    · simp [h]
    · simp [h]
  | cons c t ih =>
    intro i
    simp only [idxOfAux, occursIn]
    by_cases h : pat.isPrefixOf (c :: t) = true
    · simp [h]
    · have hb : pat.isPrefixOf (c :: t) = false := by
        cases hpb : pat.isPrefixOf (c :: t) with
        | true => exact absurd hpb h
        | false => rfl
      rw [if_neg h, ih (i + 1), hb]
      simp

theorem jsIndexOf_ne_negOne_iff (s pat : JStr) :
    jsIndexOf s pat ≠ -1 ↔ occursIn pat s = true := by
  rw [jsIndexOf, ← idxOfAux_isSome_eq_occursIn pat s 0]
  cases hx : idxOfAux pat s 0 with
  | none => simp
  | some j =>
    simp only [Option.isSome_some]
    constructor
    · intro _; trivial
    · intro _; omega

theorem idxOfAux_single_char (a : Char) :
    ∀ (s : JStr) (i : Nat),
      idxOfAux [a] s i =
        if a ∈ s then some (i + s.findIdx (fun c => c == a)) else none := by
  intro s
  induction s with
  | nil => intro i; simp [idxOfAux, List.isPrefixOf]
  | cons c t ih =>
    intro i
    by_cases hc : c = a
    · subst hc
      have hp : ([c].isPrefixOf (c :: t)) = true := by simp [List.isPrefixOf]
      simp only [idxOfAux]
      rw [if_pos hp, List.findIdx_cons]
      simp
    · have hp : ¬(([a].isPrefixOf (c :: t)) = true) := by
        simp [List.isPrefixOf]
        intro h
        exact absurd h.symm hc
      simp only [idxOfAux]
      rw [if_neg hp, ih (i + 1), List.findIdx_cons]
      have hpc : (c == a) = false := by simp [hc]
      rw [hpc]
      simp only [cond_false]
      by_cases hm : a ∈ t
      · rw [if_pos hm, if_pos (by simp [List.mem_cons, hm])]
        congr 1
        omega
      · rw [if_neg hm, if_neg ?h]
        intro h
        rcases List.mem_cons.mp h with h1 | h2
        · exact hc h1.symm
        · exact hm h2

theorem substr_indexOf_slash (s : JStr) :
    jsSubstrFrom s (jsIndexOf s (js "/")) =
      if ('/') ∈ s then s.drop (s.findIdx (fun c => c == '/'))
      else s.drop (s.length - 1) := by
  have hjs : js "/" = ['/'] := rfl
  by_cases h : ('/') ∈ s
  · have hidx : jsIndexOf s (js "/") = ((s.findIdx (fun c => c == '/')) : Int) := by
      rw [jsIndexOf, hjs, idxOfAux_single_char ('/') s 0, if_pos h]
      simp
    rw [hidx, if_pos h, jsSubstrFrom, if_neg (by omega)]
    simp
  · have hidx : jsIndexOf s (js "/") = -1 := by
      rw [jsIndexOf, hjs, idxOfAux_single_char ('/') s 0, if_neg h]
    rw [hidx, if_neg h, jsSubstrFrom, if_pos (by omega)]
    congr 1
    omega

theorem replaceFirst_of_isPrefix (s pat : JStr) (h : pat.isPrefixOf s = true) :
    jsReplaceFirst s pat [] = s.drop pat.length := by
  have h0 : jsIndexOf s pat = 0 := (jsIndexOf_eq_zero_iff s pat).mpr h
  rw [jsReplaceFirst]
  simp only [h0]
  norm_num

/-- C6 counterexample: two concrete documents where `getFullPath` deviates
from the claim's rule list.  Offline with a separator-free urn, the code
yields the local root plus the urn's LAST character, not the rule-(2)
substitution; and the local-file rule fires although the source path only
contains (does not end in) the canonical manifest filename. -/
theorem c6_counterexample :
    (getFullPath
        ⟨Item.node [] [] [], js "p", true, js "P/", js "V", js "z"⟩ (js "abc") ≠
      resolveFullPathClaim
        ⟨Item.node [] [] [], js "p", true, js "P/", js "V", js "z"⟩ (js "abc")) ∧
    (getFullPath
        ⟨Item.node [] [] [], js "a/bubble.jsonX", false, js "P/", js "V", js "z"⟩
        (js "$file$z") ≠
      resolveFullPathClaim
        ⟨Item.node [] [] [], js "a/bubble.jsonX", false, js "P/", js "V", js "z"⟩
        (js "$file$z")) := by
  constructor
  · decide
  · decide

/-- C6 (amended): for every urn, `getFullPath` applies exactly the first
matching rule of: (1) empty urn unchanged; (2) offline mode: the part of
the urn before its first separator is replaced by the configured local
root, a separator-free urn keeping only its last character; (3) urn
starting with the scheme token: rewritten to the viewing-service items URL;
(4) urn starting with the local-file marker AND the source path containing
the canonical manifest path component: the marker is replaced by the source
path with its first occurrence of that component removed; otherwise the urn
is returned unchanged. -/
theorem c6_fullpath_amended (doc : Doc) (urn : JStr) :
    getFullPath doc urn = resolveFullPathAmended doc urn := by
  rw [getFullPath, resolveFullPathAmended]
  by_cases h0 : urn = []
  · simp [h0]
  rw [if_neg h0, if_neg h0]
  by_cases hoff : doc.offline = true
  · rw [if_pos hoff, if_pos hoff, substr_indexOf_slash]
  rw [if_neg hoff, if_neg hoff]
  by_cases h3 : jsIndexOf urn (js "urn") = 0
  · rw [if_pos h3, if_pos ((jsIndexOf_eq_zero_iff urn (js "urn")).mp h3)]
  rw [if_neg h3,
    if_neg (fun hb => h3 ((jsIndexOf_eq_zero_iff urn (js "urn")).mpr hb))]
  by_cases h4a : jsIndexOf urn (js "$file$") = 0
  · by_cases h4b : jsIndexOf doc.myPath (js "/bubble.json") ≠ -1
    · have hpre := (jsIndexOf_eq_zero_iff urn (js "$file$")).mp h4a
      have hinf := (jsIndexOf_ne_negOne_iff doc.myPath (js "/bubble.json")).mp h4b
      rw [if_pos ⟨h4a, h4b⟩, if_pos ⟨hpre, hinf⟩,
        replaceFirst_of_isPrefix urn (js "$file$") hpre]
    · push_neg at h4b
      have hninf : ¬(occursIn (js "/bubble.json") doc.myPath = true) := by
        intro hx
        exact absurd h4b
          (by simpa using (jsIndexOf_ne_negOne_iff doc.myPath (js "/bubble.json")).mpr hx)
      rw [if_neg (by intro hx; exact hx.2 h4b), if_neg (fun hx => hninf hx.2)]
  · rw [if_neg (fun hx => h4a hx.1),
      if_neg (fun hx => h4a ((jsIndexOf_eq_zero_iff urn (js "$file$")).mpr hx.1))]

/-- Derivation of the shared property-database root from a matching node's
urn, as in the constructor: a urn starting with the OSS storage token keeps
everything up to and including the last escaped separator token, any other
urn everything up to and including the last literal separator. -/
def derivePropDbPath (oss urn : JStr) : JStr :=
  if jsIndexOf urn oss = 0 then
    jsSubstrTake urn (jsLastIndexOf urn (js "%2F") + 3)
  else
    jsSubstrTake urn (jsLastIndexOf urn (js "/") + 1)

/-- The three indices filled by the `Document` constructor's
`annotateViews` pass: `myViewGeometry`, `myNumViews` (JavaScript objects,
modelled as association lists where a prepended entry overrides older
ones) and `myPropertyDb` (`null` at start). -/
structure Indices where
  viewGeometry : List (Option JStr × Item)
  numViews : List (Option JStr × Nat)
  propertyDb : Option JStr

/-- Index state at the beginning of the constructor. -/
def emptyIndices : Indices := ⟨[], [], none⟩

/-- The `guid` field of a node (`none` for `undefined`). -/
def guidOf (it : Item) : Option JStr := getStr it "guid"

/-- Strict string comparison of a node's `type` field with a literal. -/
def isType (it : Item) (ty : String) : Bool :=
  getField it "type" == some (.str (js ty))

/-- JavaScript truthiness of the `urn` field: present and non-empty. -/
def urnTruthy (it : Item) : Bool :=
  match getStr it "urn" with
  | some u => !u.isEmpty
  | none => false

/-- The shared-property-database test of the constructor:
`item.mime == "application/autodesk-db" && item.urn` (the loose comparison
coincides with the strict one on string-valued fields). -/
def isDbNode (it : Item) : Bool :=
  (getField it "mime" == some (.str (js "application/autodesk-db"))) && urnTruthy it

/-- One step of the view-counting loop inside `annotateViews`: a
`view`-typed child is recorded in `myViewGeometry` under its guid (mapped
to the geometry item) and bumps the view counter. -/
def viewStep (it : Item) (p : Indices × Nat) (c : Item) : Indices × Nat :=
  if isType c "view" then
    ({ p.1 with viewGeometry := (guidOf c, it) :: p.1.viewGeometry }, p.2 + 1)
  else p

mutual

/-- The constructor's `annotateViews` recursion: a geometry node with
children gets its `view` children counted and indexed (and its subtree is
NOT entered); otherwise a node with a shared-db mime and a truthy urn sets
`myPropertyDb` (unconditionally overwriting any earlier value); otherwise
the children, if any, are visited in order. -/
def annotateViews (oss : JStr) (st : Indices) : Item → Indices
  | .node fields msgs cs =>
    let it := Item.node fields msgs cs
    if isType it "geometry" && !cs.isEmpty then
      let p := cs.foldl (viewStep it) (st, 0)
      { p.1 with numViews := (guidOf it, p.2) :: p.1.numViews }
    else if isDbNode it = true then
      { st with propertyDb := some (derivePropDbPath oss ((getStr it "urn").getD [])) }
    else if 0 < cs.length then
      annotateViewsList oss st cs
    else st

/-- The child loop of the recursive third branch of `annotateViews`. -/
def annotateViewsList (oss : JStr) (st : Indices) : List Item → Indices
  | [] => st
  | c :: rest => annotateViewsList oss (annotateViews oss st c) rest

end

/-- The indices built by the `Document` constructor for a document. -/
def buildIndices (doc : Doc) : Indices :=
  annotateViews doc.ossToken emptyIndices doc.root

/-- `Document.prototype.getPropertyDbPath`: the stored `myPropertyDb`. -/
def getPropertyDbPath (doc : Doc) : Option JStr :=
  (buildIndices doc).propertyDb

/-- `Document.prototype.getNumViews`: `myNumViews[item.guid] || 0`. -/
def getNumViews (doc : Doc) (it : Item) : Nat :=
  (((buildIndices doc).numViews).lookup (guidOf it)).getD 0

/-- `Document.prototype.getViewGeometry`: `myViewGeometry[item.guid]`. -/
def getViewGeometry (doc : Doc) (it : Item) : Option Item :=
  ((buildIndices doc).viewGeometry).lookup (guidOf it)

mutual

/-- The derived property-db paths of the nodes that the `annotateViews`
traversal visits and that match the shared-db test, in traversal order. -/
def dbMatches (oss : JStr) : Item → List JStr
  | .node fields msgs cs =>
    let it := Item.node fields msgs cs
    if isType it "geometry" && !cs.isEmpty then []
    else if isDbNode it = true then
      [derivePropDbPath oss ((getStr it "urn").getD [])]
    else if 0 < cs.length then dbMatchesList oss cs
    else []

/-- List version of `dbMatches`, in sibling order. -/
def dbMatchesList (oss : JStr) : List Item → List JStr
  | [] => []
  | c :: rest => dbMatches oss c ++ dbMatchesList oss rest

end

mutual

/-- The geometry nodes that the `annotateViews` traversal processes with
its first branch (geometry nodes with children that are not nested below
another processed geometry node or below a shared-db node), in traversal
order. -/
def visitedGeoms : Item → List Item
  | .node fields msgs cs =>
    let it := Item.node fields msgs cs
    if isType it "geometry" && !cs.isEmpty then [it]
    else if isDbNode it = true then []
    else if 0 < cs.length then visitedGeomsList cs
    else []

/-- List version of `visitedGeoms`, in sibling order. -/
def visitedGeomsList : List Item → List Item
  | [] => []
  | c :: rest => visitedGeoms c ++ visitedGeomsList rest

end

/-- Number of direct `view`-typed children of a node. -/
def viewChildCount (it : Item) : Nat :=
  ((childrenOf it).filter (fun c => isType c "view")).length

theorem viewFold_fst (it : Item) (cs : List Item) :
    ∀ (st : Indices) (n : Nat),
      ((cs.foldl (viewStep it) (st, n)).1).propertyDb = st.propertyDb ∧
        ((cs.foldl (viewStep it) (st, n)).1).numViews = st.numViews := by
  induction cs with
  | nil => intro st n; exact ⟨rfl, rfl⟩
  | cons c rest ih =>
    intro st n
    rw [List.foldl_cons]
    by_cases h : isType c "view" = true
    · rw [viewStep, if_pos h]
      exact ih _ _
    · rw [viewStep, if_neg h]
      exact ih _ _

theorem viewFold_count (it : Item) (cs : List Item) :
    ∀ (st : Indices) (n : Nat),
      (cs.foldl (viewStep it) (st, n)).2 =
        n + (cs.filter (fun c => isType c "view")).length := by
  induction cs with
  | nil => intro st n; simp
  | cons c rest ih =>
    intro st n
    rw [List.foldl_cons, List.filter_cons]
    by_cases h : isType c "view" = true
    · rw [viewStep, if_pos h, if_pos h, ih]
      simp
      omega
    · rw [viewStep, if_neg h, if_neg h, ih]

/-- Last element of a list as an option, with an explicit default: the
value an overwrite-on-each-match loop leaves behind. -/
def lastOr (d : Option JStr) (l : List JStr) : Option JStr :=
  l.foldl (fun _ x => some x) d

theorem lastOr_append (d : Option JStr) (a b : List JStr) :
    lastOr (lastOr d a) b = lastOr d (a ++ b) := by
  rw [lastOr, lastOr, lastOr, List.foldl_append]

theorem lastOr_eq_getLast (d : Option JStr) (l : List JStr) :
    lastOr d l = match l.getLast? with | some p => some p | none => d := by
  induction l using List.reverseRecOn with
  | nil => rfl
  | append_singleton a x _ih =>
    rw [lastOr, List.foldl_append, List.getLast?_concat]
    simp

theorem annotateList_propertyDb (oss : JStr) (cs : List Item)
    (ih : ∀ c ∈ cs, ∀ st : Indices,
      (annotateViews oss st c).propertyDb = lastOr st.propertyDb (dbMatches oss c)) :
    ∀ st : Indices,
      (annotateViewsList oss st cs).propertyDb =
        lastOr st.propertyDb (dbMatchesList oss cs) := by
  induction cs with
  | nil => intro st; rfl
  | cons c rest ihr =>
    intro st
    rw [annotateViewsList, dbMatchesList, ← lastOr_append,
      ihr (fun x hx => ih x (List.mem_cons_of_mem c hx)) (annotateViews oss st c),
      ih c (List.mem_cons_self c rest) st]

theorem annotate_propertyDb (oss : JStr) :
    ∀ it : Item, ∀ st : Indices,
      (annotateViews oss st it).propertyDb = lastOr st.propertyDb (dbMatches oss it) := by
  intro it
  induction it using item_induction with
  | h fields msgs cs ih =>
    intro st
    rw [annotateViews, dbMatches]
    by_cases h1 : (isType (.node fields msgs cs) "geometry" && !cs.isEmpty) = true
    · rw [if_pos h1, if_pos h1]
      show (cs.foldl (viewStep (Item.node fields msgs cs)) (st, 0)).1.propertyDb = _
      rw [(viewFold_fst (Item.node fields msgs cs) cs st 0).1]
      rfl
    · rw [if_neg h1, if_neg h1]
      by_cases h2 : isDbNode (.node fields msgs cs) = true
      · rw [if_pos h2, if_pos h2]
        rfl
      · rw [if_neg h2, if_neg h2]
        by_cases h3 : 0 < cs.length
        · rw [if_pos h3, if_pos h3]
          exact annotateList_propertyDb oss cs ih st
        · rw [if_neg h3, if_neg h3]
          rfl

/-- C2 counterexample: a root with two shared-property-database children.
The first node in pre-order derives the path of the urn `a/x`, but the
constructor stores the path derived from the LATER matching node `b/y`:
matches are not first-wins, each overwrites the previous one. -/
theorem c2_counterexample :
    (annotateViews (js "zzz") emptyIndices
        (Item.node [("type", .str (js "folder"))] []
          [Item.node [("mime", .str (js "application/autodesk-db")),
              ("urn", .str (js "a/x"))] [] [],
            Item.node [("mime", .str (js "application/autodesk-db")),
              ("urn", .str (js "b/y"))] [] []])).propertyDb = some (js "b/") ∧
      derivePropDbPath (js "zzz") (js "a/x") = js "a/" ∧
      some (js "b/") ≠ some (js "a/") := by
  exact ⟨by decide, by decide, by decide⟩

/-- C2 (amended): during construction, `myPropertyDb` equals the path
derived (prefix of the urn up to and including the last separator, the
escaped separator token counting for OSS-prefixed urns) from the LAST node,
in the constructor traversal's order, whose mime marks a shared property
database with a truthy urn; matching nodes encountered later overwrite the
stored value, and with no matching node the value stays null, without
error.  The traversal skips the subtrees of counted geometry nodes and of
matching nodes themselves. -/
theorem c2_propertydb_last_match (oss : JStr) (root : Item) :
    (annotateViews oss emptyIndices root).propertyDb = (dbMatches oss root).getLast? := by
  rw [annotate_propertyDb oss root emptyIndices, lastOr_eq_getLast]
  cases (dbMatches oss root).getLast? <;> rfl

theorem annotateList_numViews (cs : List Item)
    (oss : JStr)
    (ih : ∀ c ∈ cs, ∀ st : Indices,
      (annotateViews oss st c).numViews =
        ((visitedGeoms c).map (fun v => (guidOf v, viewChildCount v))).reverse ++
          st.numViews) :
    ∀ st : Indices,
      (annotateViewsList oss st cs).numViews =
        ((visitedGeomsList cs).map (fun v => (guidOf v, viewChildCount v))).reverse ++
          st.numViews := by
  induction cs with
  | nil => intro st; rfl
  | cons c rest ihr =>
    intro st
    rw [annotateViewsList, visitedGeomsList,
      ihr (fun x hx => ih x (List.mem_cons_of_mem c hx)) (annotateViews oss st c),
      ih c (List.mem_cons_self c rest) st, List.map_append, List.reverse_append,
      List.append_assoc]

theorem annotate_numViews (oss : JStr) :
    ∀ it : Item, ∀ st : Indices,
      (annotateViews oss st it).numViews =
        ((visitedGeoms it).map (fun v => (guidOf v, viewChildCount v))).reverse ++
          st.numViews := by
  intro it
  induction it using item_induction with
  | h fields msgs cs ih =>
    intro st
    rw [annotateViews, visitedGeoms]
    by_cases h1 : (isType (.node fields msgs cs) "geometry" && !cs.isEmpty) = true
    · rw [if_pos h1, if_pos h1]
      show (guidOf (Item.node fields msgs cs),
          (cs.foldl (viewStep (Item.node fields msgs cs)) (st, 0)).2) ::
          (cs.foldl (viewStep (Item.node fields msgs cs)) (st, 0)).1.numViews = _
      rw [(viewFold_fst (Item.node fields msgs cs) cs st 0).2,
        viewFold_count (Item.node fields msgs cs) cs st 0]
      simp [viewChildCount, childrenOf]
    · rw [if_neg h1, if_neg h1]
      by_cases h2 : isDbNode (.node fields msgs cs) = true
      · rw [if_pos h2, if_pos h2]
        rfl
      · rw [if_neg h2, if_neg h2]
        by_cases h3 : 0 < cs.length
        · rw [if_pos h3, if_pos h3]
          exact annotateList_numViews cs oss ih st
        · rw [if_neg h3, if_neg h3]
          rfl

theorem lookup_append_split {β : Type} (l1 l2 : List (Option JStr × β))
    (k : Option JStr) :
    (l1 ++ l2).lookup k =
      match l1.lookup k with
      | some v => some v
      | none => l2.lookup k := by
  induction l1 with
  | nil => rfl
  | cons a t ih =>
    rcases a with ⟨ka, va⟩
    rw [List.cons_append]
    by_cases hk : (k == ka) = true
    · simp only [List.lookup, hk]
    · have hk2 : (k == ka) = false := by
        cases hx : (k == ka) with
        | true => exact absurd hx hk
        | false => rfl
      simp only [List.lookup, hk2, ih]

theorem lookup_eq_none_of_not_mem_keys {β : Type} (l : List (Option JStr × β))
    (k : Option JStr) (h : k ∉ l.map Prod.fst) : l.lookup k = none := by
  induction l with
  | nil => rfl
  | cons a t ih =>
    rcases a with ⟨ka, va⟩
    have hne : k ≠ ka := by
      intro hx
      exact h (by rw [hx, List.map_cons]; exact List.mem_cons_self _ _)
    have hk2 : (k == ka) = false := beq_eq_false_iff_ne.mpr hne
    simp only [List.lookup, hk2]
    exact ih (fun hx => h (by simp only [List.map_cons, List.mem_cons]; exact Or.inr hx))

theorem lookup_visited_entries (vis : List Item) (g : Item)
    (hnd : (vis.map guidOf).Nodup) (hmem : g ∈ vis) :
    ((vis.map (fun v => (guidOf v, viewChildCount v))).reverse).lookup (guidOf g) =
      some (viewChildCount g) := by
  induction vis with
  | nil => cases hmem
  | cons v rest ih =>
    rw [List.map_cons, List.nodup_cons] at hnd
    rw [List.map_cons, List.reverse_cons, lookup_append_split]
    rcases List.mem_cons.mp hmem with hgv | hgr
    · have hnotin : guidOf g ∉ (rest.map guidOf) := by
        rw [hgv]
        exact hnd.1
      have hnone :
          ((rest.map (fun v => (guidOf v, viewChildCount v))).reverse).lookup (guidOf g)
            = none := by
        apply lookup_eq_none_of_not_mem_keys
        intro hx
        apply hnotin
        rw [List.map_reverse, List.mem_reverse, List.map_map] at hx
        simpa [Function.comp] using hx
      rw [hnone, hgv]
      simp only [List.lookup, beq_self_eq_true]
    · rw [ih hnd.2 hgr]

/-- C5 counterexample: a geometry node `g2` nested below another geometry
node is never visited by the constructor traversal (the first branch does
not recurse), so its guid is absent from `myNumViews` and `getNumViews`
answers 0 although `g2` has one direct `view` child. -/
theorem c5_counterexample :
    getNumViews
        ⟨Item.node [("type", .str (js "folder")), ("guid", .str (js "r"))] []
            [Item.node [("type", .str (js "geometry")), ("guid", .str (js "g1"))] []
              [Item.node [("type", .str (js "geometry")), ("guid", .str (js "g2"))] []
                [Item.node [("type", .str (js "view")), ("guid", .str (js "v"))] [] []]]],
          js "p", false, js "", js "V", js "zzz"⟩
        (Item.node [("type", .str (js "geometry")), ("guid", .str (js "g2"))] []
          [Item.node [("type", .str (js "view")), ("guid", .str (js "v"))] [] []]) = 0 ∧
      viewChildCount
        (Item.node [("type", .str (js "geometry")), ("guid", .str (js "g2"))] []
          [Item.node [("type", .str (js "view")), ("guid", .str (js "v"))] [] []]) = 1 ∧
      isType
        (Item.node [("type", .str (js "geometry")), ("guid", .str (js "g2"))] []
          [Item.node [("type", .str (js "view")), ("guid", .str (js "v"))] [] []])
        "geometry" = true := by
  exact ⟨by decide, by decide, by decide⟩

/-- C5 (amended): provided the guids of the geometry nodes processed by the
constructor traversal are pairwise distinct, `getNumViews` answers, for
every processed geometry node, exactly its number of direct `view`-typed
children, and answers 0 for every node whose guid is absent from the index.
A geometry node nested below another processed geometry node (or below a
shared-property-database node) is NOT processed, so for it the answer is 0
regardless of its view children. -/
theorem c5_numviews_amended (doc : Doc) (g : Item)
    (hnd : ((visitedGeoms doc.root).map guidOf).Nodup) :
    (g ∈ visitedGeoms doc.root → getNumViews doc g = viewChildCount g) ∧
      (guidOf g ∉ (visitedGeoms doc.root).map guidOf → getNumViews doc g = 0) := by
  constructor
  · intro hmem
    rw [getNumViews, buildIndices, annotate_numViews doc.ossToken doc.root emptyIndices,
      show emptyIndices.numViews = [] from rfl, List.append_nil,
      lookup_visited_entries (visitedGeoms doc.root) g hnd hmem]
    rfl
  · intro hnot
    rw [getNumViews, buildIndices, annotate_numViews doc.ossToken doc.root emptyIndices,
      show emptyIndices.numViews = [] from rfl, List.append_nil,
      lookup_eq_none_of_not_mem_keys]
    · rfl
    · intro hx
      apply hnot
      rw [List.map_reverse, List.mem_reverse, List.map_map] at hx
      simpa [Function.comp] using hx

/-- Concrete geometry root used to witness the amended C5. -/
def c5docItem : Item :=
  Item.node [("type", .str (js "geometry")), ("guid", .str (js "g"))] []
    [Item.node [("type", .str (js "view")), ("guid", .str (js "v"))] [] []]

/-- Concrete document used to witness the amended C5. -/
def c5doc : Doc := ⟨c5docItem, js "p", false, js "", js "V", js "zzz"⟩

theorem c5_numviews_amended_witness :
    (((visitedGeoms c5doc.root).map guidOf).Nodup) ∧
      (c5docItem ∈ visitedGeoms c5doc.root) ∧
      getNumViews c5doc c5docItem = viewChildCount c5docItem := by
  have hnd : ((visitedGeoms c5doc.root).map guidOf).Nodup := by decide
  have hmem : c5docItem ∈ visitedGeoms c5doc.root := by
    rw [show visitedGeoms c5doc.root = [c5docItem] from rfl]
    exact List.mem_singleton_self c5docItem
  exact ⟨hnd, hmem, (c5_numviews_amended c5doc c5docItem hnd).1 hmem⟩

/-- Whether the enclosing page's `window.parent` equals a given manifest
node.  Inside `Document.prototype.getMessages` the identifier `parent` is
not declared in any enclosing scope, so it resolves to the browser global
`window.parent`, a `Window` object, which is never reference-equal to a
manifest node: the comparison is constantly false. -/
def windowParentIsNode (_root : Item) : Bool := false

/-- `Document.prototype.getMessages`, with the parent-pointer walk
materialised as the explicit chain `node :: ancestors … root`.  The loop:
while `current` is non-null, break when `excludeGlobal && parent === root`
(see `windowParentIsNode`), else push `current.messages` and move to
`current.parent`; a null starting node yields the empty list. -/
def getMessages (excludeGlobal : Bool) (root : Item) : List Item → List JStr
  | [] => []
  | cur :: rest =>
    if excludeGlobal && windowParentIsNode root then []
    else messagesOf cur ++ getMessages excludeGlobal root rest

theorem getMessages_excl_irrelevant (root : Item) (chain : List Item) :
    getMessages true root chain = getMessages false root chain := by
  induction chain with
  | nil => rfl
  | cons cur rest ih => rw [getMessages, getMessages, ih]; rfl

/-- C4: the `excludeGlobal` flag of `getMessages` has no effect — the break
compares the undeclared identifier `parent` (the window, not
`current.parent`) with the root — so on a chain `child :: root` where the
root carries a global message, that message IS returned even with
`excludeGlobal` set, where the claim (and the function's own documentation)
promises it excluded. -/
theorem c4_exclude_global_broken :
    getMessages true
        (Item.node [] [js "global"] [Item.node [] [js "local"] []])
        [Item.node [] [js "local"] [],
          Item.node [] [js "global"] [Item.node [] [js "local"] []]] =
      [js "local", js "global"] ∧
    [js "local", js "global"] ≠ [js "local"] ∧
    (∀ (root : Item) (chain : List Item),
      getMessages true root chain = getMessages false root chain) := by
  exact ⟨by decide, by decide, getMessages_excl_irrelevant⟩

/-- The loader options populated on the `outLoadOptions` object by
`getLeafletParams`; fields keep the dynamic values copied from the leaflet
resource item (`none` models `undefined`). -/
structure LoadOptions where
  urlPattern : Option JVal
  tileSize : JVal
  texWidth : Option ℚ
  texHeight : Option ℚ
  paperWidth : Option JVal
  paperHeight : Option JVal
  paperUnits : Option JVal
  levelOffset : ℚ
  maxLevel : Option ℚ
deriving DecidableEq

/-- JavaScript truthiness of a scalar value. -/
def truthyJVal : JVal → Bool
  | .str s => !s.isEmpty
  | .num q => q != 0
  | .arr _ => true

/-- `getLeafletParams(outLoadOptions, geomItem, leafletItem)`.  The
level-offset computation `LeafletLoader.computeLevelOffset(tileSize)` is an
external collaborator (spec §9 treats it as a pure function of the tile
size), so it is taken as a parameter `clo`.  The `maxLevel` entry is set
only when a `leaflet-zip` resource exists under the geometry item. -/
def getLeafletParams (clo : JVal → ℚ) (geomItem leafletItem : Item) : LoadOptions :=
  let tileSize : JVal :=
    match getField leafletItem "tileSize" with
    | some v => if truthyJVal v then v else .num 512
    | none => .num 512
  let levelOffset := clo tileSize
  let zips := getSubItems [("role", .str (js "leaflet-zip"))] false geomItem
  { urlPattern := getField leafletItem "urn"
    tileSize := tileSize
    texWidth := (getArr leafletItem "resolution").bind (fun l => l.get? 0)
    texHeight := (getArr leafletItem "resolution").bind (fun l => l.get? 1)
    paperWidth := getField leafletItem "paperWidth"
    paperHeight := getField leafletItem "paperHeight"
    paperUnits := getField leafletItem "paperUnits"
    levelOffset := levelOffset
    maxLevel :=
      match zips with
      | [] => none
      | z :: _ => (getNum z "max_level").map (fun m => m - levelOffset) }

/-- `Document.prototype.getViewablePath(item, outLoadOptions)` with an
explicit recursion bound: the only self-call goes through the
view-geometry index, which stores geometry-typed nodes, so the JavaScript
recursion is at most one level deep and a fuel of 2 reproduces it.  The
presence of the caller's `outLoadOptions` object is the boolean `hasOut`;
the populated options are returned instead of mutated in place. -/
def getViewablePathFuel (clo : JVal → ℚ) (doc : Doc) :
    Nat → Item → Bool → JStr × Option LoadOptions
  | 0, _, _ => ([], none)
  | Nat.succ fuel, item, hasOut =>
    if isType item "geometry" then
      let pair : List Item × Option LoadOptions :=
        if getField item "role" == some (.str (js "3d")) then
          (getSubItems [("mime", .str (js "application/autodesk-svf"))] false item, none)
        else if getField item "role" == some (.str (js "2d")) then
          let lf := getSubItems [("role", .str (js "leaflet"))] false item
          let opts :=
            if !lf.isEmpty && hasOut then
              some (getLeafletParams clo item (lf.headD (Item.node [] [] [])))
            else none
          let items1 :=
            if lf.isEmpty then
              getSubItems [("mime", .str (js "application/autodesk-f2d"))] false item
            else lf
          let items2 :=
            if items1.isEmpty then
              getSubItems [("role", .str (js "tileRoot"))] true item
            else items1
          (items2, opts)
        else ([], none)
      match pair with
      | (i :: _, opts) => (getFullPath doc ((getStr i "urn").getD []), opts)
      | ([], opts) => ([], opts)
    else if isType item "view" then
      match getViewGeometry doc item with
      | some geometryItem => getViewablePathFuel clo doc fuel geometryItem false
      | none => ([], none)
    else ([], none)

/-- `Document.prototype.getViewablePath` at its actual recursion depth. -/
def getViewablePath (clo : JVal → ℚ) (doc : Doc) (item : Item) (hasOut : Bool) :
    JStr × Option LoadOptions :=
  getViewablePathFuel clo doc 2 item hasOut

/-- Leaflet resource child used for the C1 input. -/
def c1leaf : Item :=
  Item.node [("role", .str (js "leaflet")), ("urn", .str (js "L")),
    ("resolution", .arr [100, 200])] [] []

/-- Vector (f2d) resource child used for the C1 input. -/
def c1f2d : Item :=
  Item.node [("mime", .str (js "application/autodesk-f2d")),
    ("urn", .str (js "F"))] [] []

/-- 2-D geometry node with both a leaflet child and an f2d child. -/
def c1geom : Item :=
  Item.node [("type", .str (js "geometry")), ("role", .str (js "2d")),
    ("guid", .str (js "g"))] [] [c1leaf, c1f2d]

/-- Document wrapping `c1geom`. -/
def c1doc : Doc := ⟨c1geom, js "p", false, js "", js "V", js "zzz"⟩

/-- C1 counterexample: on a 2-D geometry item having both a `leaflet` child
(urn `L`) and an `application/autodesk-f2d` child (urn `F`), the resolved
path is the LEAFLET child's full path `L`, not the f2d child's `F`: the
presence of a leaflet child short-circuits path selection (the f2d lookup
runs only under `items.length === 0`). -/
theorem c1_counterexample :
    (getViewablePath (fun _ => (0 : ℚ)) c1doc c1geom true).1 = js "L" ∧
      getFullPath c1doc (js "F") = js "F" ∧
      js "L" ≠ js "F" := by
  exact ⟨by decide, by decide, by decide⟩

/-- C1 (amended): for a geometry item of role `2d` having a `leaflet`-role
child (and also an f2d child), `getViewablePath` called with an
`outLoadOptions` object populates the leaflet load options AND returns the
full path derived from the LEAFLET child's urn; the f2d child is consulted
only when no leaflet child exists. -/
theorem c1_leaflet_shortcircuits (clo : JVal → ℚ) (doc : Doc) (item c : Item)
    (cs : List Item)
    (hgeom : isType item "geometry" = true)
    (hrole : getField item "role" = some (.str (js "2d")))
    (hlf : getSubItems [("role", .str (js "leaflet"))] false item = c :: cs)
    (hf2 : (getSubItems [("mime", .str (js "application/autodesk-f2d"))] false item).isEmpty
      = false) :
    getViewablePath clo doc item true =
      (getFullPath doc ((getStr c "urn").getD []),
        some (getLeafletParams clo item c)) := by
  have h3d : (getField item "role" == some (JVal.str (js "3d"))) = false := by
    rw [hrole]; decide
  have h2d : (getField item "role" == some (JVal.str (js "2d"))) = true := by
    rw [hrole]; decide
  rw [getViewablePath]
  show getViewablePathFuel clo doc (Nat.succ 1) item true = _
  simp only [getViewablePathFuel]
  rw [if_pos hgeom, h3d, h2d, hlf]
  simp

theorem c1_leaflet_shortcircuits_witness :
    isType c1geom "geometry" = true ∧
      getField c1geom "role" = some (.str (js "2d")) ∧
      getSubItems [("role", .str (js "leaflet"))] false c1geom = c1leaf :: [] ∧
      (getSubItems [("mime", .str (js "application/autodesk-f2d"))] false c1geom).isEmpty
        = false ∧
      getViewablePath (fun _ => (0 : ℚ)) c1doc c1geom true =
        (getFullPath c1doc ((getStr c1leaf "urn").getD []),
          some (getLeafletParams (fun _ => (0 : ℚ)) c1geom c1leaf)) := by
  refine ⟨by decide, by decide, rfl, by decide, ?_⟩
  exact c1_leaflet_shortcircuits (fun _ => (0 : ℚ)) c1doc c1geom c1leaf []
    (by decide) (by decide) rfl (by decide)

/-- Rational division in a form the kernel can evaluate (`Rat.inv` is
irreducible, blocking `decide`): `qdiv a b = a / b`, see `qdiv_eq_div`. -/
def qdiv (a b : ℚ) : ℚ := a * Rat.divInt (b.den : Int) b.num

theorem qdiv_eq_div (a b : ℚ) : qdiv a b = a / b := by
  rw [qdiv, ← Rat.inv_def', div_eq_mul_inv]

/-- A 4x4 matrix as its flat 16-entry `elements` array, column-major, as
stored by the THREE/Lmv matrix classes (and as fed directly from the
viewport's 16-number transform by `elements.set`). -/
abbrev Mat4 := List ℚ

/-- Entry at row `r`, column `c` of a column-major elements array. -/
def elemAt (e : Mat4) (r c : Nat) : ℚ := e.getD (c * 4 + r) 0

/-- Build a column-major elements array from an entry function. -/
def mkMat (f : Nat → Nat → ℚ) : Mat4 :=
  [f 0 0, f 1 0, f 2 0, f 3 0,
   f 0 1, f 1 1, f 2 1, f 3 1,
   f 0 2, f 1 2, f 2 2, f 3 2,
   f 0 3, f 1 3, f 2 3, f 3 3]

/-- `Matrix4.set(n11 .. n44)`: row-major arguments stored column-major. -/
def mat4Set (n11 n12 n13 n14 n21 n22 n23 n24
    n31 n32 n33 n34 n41 n42 n43 n44 : ℚ) : Mat4 :=
  [n11, n21, n31, n41, n12, n22, n32, n42, n13, n23, n33, n43, n14, n24, n34, n44]

/-- The identity matrix (`new THREE.Matrix4()` / `new LmvMatrix4(true)`). -/
def identity4 : Mat4 := mat4Set 1 0 0 0 0 1 0 0 0 0 1 0 0 0 0 1

/-- Matrix product `a * b` (`a.multiply(b)`). -/
def mul4 (a b : Mat4) : Mat4 :=
  mkMat fun r c =>
    elemAt a r 0 * elemAt b 0 c + elemAt a r 1 * elemAt b 1 c +
      elemAt a r 2 * elemAt b 2 c + elemAt a r 3 * elemAt b 3 c

/-- Determinant of a 3x3 matrix given row-wise. -/
def det3 (a b c d e f g h i : ℚ) : ℚ :=
  a * (e * i - f * h) - b * (d * i - f * g) + c * (d * h - e * g)

/-- The three indices other than `k` among 0..3. -/
def othersOf (k : Nat) : Nat × Nat × Nat :=
  match k with
  | 0 => (1, 2, 3)
  | 1 => (0, 2, 3)
  | 2 => (0, 1, 3)
  | _ => (0, 1, 2)

/-- Minor of the entry at row `r`, column `c`. -/
def minorAt (m : Mat4) (r c : Nat) : ℚ :=
  let rs := othersOf r
  let cs := othersOf c
  det3 (elemAt m rs.1 cs.1) (elemAt m rs.1 cs.2.1) (elemAt m rs.1 cs.2.2)
    (elemAt m rs.2.1 cs.1) (elemAt m rs.2.1 cs.2.1) (elemAt m rs.2.1 cs.2.2)
    (elemAt m rs.2.2 cs.1) (elemAt m rs.2.2 cs.2.1) (elemAt m rs.2.2 cs.2.2)

/-- Cofactor of the entry at row `r`, column `c`. -/
def cofAt (m : Mat4) (r c : Nat) : ℚ :=
  (if (r + c) % 2 = 0 then 1 else -1) * minorAt m r c

/-- Determinant by cofactor expansion along row 0. -/
def det4 (m : Mat4) : ℚ :=
  elemAt m 0 0 * cofAt m 0 0 + elemAt m 0 1 * cofAt m 0 1 +
    elemAt m 0 2 * cofAt m 0 2 + elemAt m 0 3 * cofAt m 0 3

/-- Modelled from the spec: the inversion step of `ViewportTransform.get`
("Invert the repaired model→logical matrix to get logical→model") is done
by `LmvMatrix4.getInverse`, whose source lies outside the embedded files;
it is the mathematical inverse via the adjugate, with the THREE-family
identity fallback on a zero determinant. -/
def inverse4 (m : Mat4) : Mat4 :=
  if det4 m = 0 then identity4
  else mkMat fun r c => qdiv (cofAt m c r) (det4 m)

/-- The mutable array store: `vp.transform` holds a reference (index) into
it, so that `slice()` (allocation of a copy) and in-place mutation are
distinguishable from reads of the stored original. -/
abbrev Store := List (List ℚ)

/-- Read the array behind a reference. -/
def readArr (s : Store) (r : Nat) : List ℚ := s.getD r []

/-- Overwrite the array behind a reference. -/
def writeArr (s : Store) (r : Nat) (a : List ℚ) : Store := s.set r a

/-- `array.slice()` target: allocate a fresh array, returning the new
store and the fresh reference. -/
def allocArr (s : Store) (a : List ℚ) : Store × Nat := (s ++ [a], s.length)

/-- In-place swap of two entries of an array (one iteration of the swap
loops in `repairViewportMatrix`). -/
def swapAt (l : List ℚ) (i j : Nat) : List ℚ :=
  (l.set i (l.getD j 0)).set j (l.getD i 0)

/-- One whole swap loop of `repairViewportMatrix`: exchange the 4-entry
groups starting at `i` and at `j`. -/
def swapSeg (l : List ℚ) (i j : Nat) : List ℚ :=
  swapAt (swapAt (swapAt (swapAt l i j) (i + 1) (j + 1)) (i + 2) (j + 2)) (i + 3) (j + 3)

/-- First repair stage of `repairViewportMatrix`: when `|e[0]| < 1e-3`,
swap group 0 with group 1 if `|e[4]| > 1e-3`, else with group 2. -/
def repairFirst (e : List ℚ) : List ℚ :=
  if |e.getD 0 0| < mkRat 1 1000 then
    if |e.getD 4 0| > mkRat 1 1000 then swapSeg e 0 4 else swapSeg e 0 8
  else e

/-- Second repair stage of `repairViewportMatrix`: when `|e[5]| < 1e-3`
(read after the first stage), swap group 1 with group 2. -/
def repairSecond (e : List ℚ) : List ℚ :=
  if |e.getD 5 0| < mkRat 1 1000 then swapSeg e 4 8 else e

/-- The pure effect of `repairViewportMatrix` on an elements array. -/
def repairElems (e : List ℚ) : List ℚ := repairSecond (repairFirst e)

/-- `repairViewportMatrix(elements)` as an in-place mutation of the array
behind reference `r`. -/
def repairViewportMatrix (s : Store) (r : Nat) : Store :=
  writeArr s r (repairElems (readArr s r))

/-- The 16-number viewport transform with rows 0 and 1 (element groups
0..3 and 4..7) exchanged. -/
def swapRows01 (M : List ℚ) : List ℚ := swapSeg M 0 4

/-- A clip record of the 2-D data: flat `contourCounts` and interleaved
`points` arrays. -/
structure Clip where
  contourCounts : List Nat
  points : List ℚ

/-- A viewport record of the 2-D data; `transform` is the reference to its
16-number raw transform array in the store. -/
structure Viewport where
  transform : Nat

/-- The `metadata.page_dimensions` block read by the transform code. -/
structure PageDims where
  page_width : ℚ
  page_height : ℚ
  logical_width : ℚ
  logical_height : ℚ
  logical_offset_x : ℚ
  logical_offset_y : ℚ

/-- The 2-D payload (`model.myData`) as read by `getPageToModelTransform`
and `pointInClip`: optional precomputed override, page dimensions,
viewports (`none` for a hole / out-of-range read), clips, and the lazily
created `viewportTransforms` cache. -/
structure F2D where
  pageToModelTransform : Option Mat4
  page_dimensions : PageDims
  viewports : List (Option Viewport)
  clips : List Clip
  viewportTransforms : Option (List (Option Mat4))

/-- `Model.prototype.getPageToModelTransform(vpId)`: returns the
precomputed override if present; the identity for a missing viewport
entry; the cached matrix if one exists; otherwise composes
`inverse(repair(copy of vp.transform))` with the page→logical matrix built
from the page dimensions, caches it, and returns it.  The returned triple
is (result, updated model data, updated array store). -/
def getPageToModelTransform (d : F2D) (s : Store) (vpId : Nat) :
    Mat4 × F2D × Store :=
  match d.pageToModelTransform with
  | some t => (t, d, s)
  | none =>
    let pd := d.page_dimensions
    match d.viewports.getD vpId none with
    | none => (identity4, d, s)
    | some vp =>
      let vts := d.viewportTransforms.getD (List.replicate d.viewports.length none)
      match vts.getD vpId none with
      | some cached => (cached, { d with viewportTransforms := some vts }, s)
      | none =>
        let pageToLogical := mat4Set
          (qdiv pd.logical_width pd.page_width) 0 0 pd.logical_offset_x
          0 (qdiv pd.logical_height pd.page_height) 0 pd.logical_offset_y
          0 0 1 0
          0 0 0 1
        let sliced := allocArr s (readArr s vp.transform)
        let s2 := repairViewportMatrix sliced.1 sliced.2
        let modelToLogical := readArr s2 sliced.2
        let logicalToModel := inverse4 modelToLogical
        let result := mul4 logicalToModel pageToLogical
        (result,
          { d with viewportTransforms := some (vts.set vpId (some result)) },
          s2)

theorem getD_set_ne {α : Type} :
    ∀ (l : List α) (i j : Nat) (a : α) (d : α), i ≠ j →
      (l.set i a).getD j d = l.getD j d := by
  intro l
  induction l with
  | nil => intro i j a d _; simp
  | cons x t ih =>
    intro i j a d hij
    cases i with
    | zero =>
      cases j with
      | zero => exact absurd rfl hij
      | succ k => simp [List.getD]
    | succ m =>
      cases j with
      | zero => simp [List.getD]
      | succ k =>
        simp only [List.set, List.getD_cons_succ]
        exact ih m k a d (fun h => hij (by rw [h]))

theorem getD_append_left {α : Type} :
    ∀ (l l2 : List α) (i : Nat) (d : α), i < l.length →
      (l ++ l2).getD i d = l.getD i d := by
  intro l
  induction l with
  | nil => intro l2 i d h; simp at h
  | cons x t ih =>
    intro l2 i d h
    cases i with
    | zero => simp [List.getD]
    | succ k =>
      simp only [List.cons_append, List.getD_cons_succ]
      exact ih l2 k d (by simpa using h)

theorem getD_concat_self {α : Type} :
    ∀ (l : List α) (a : α) (d : α), (l ++ [a]).getD l.length d = a := by
  intro l
  induction l with
  | nil => intro a d; simp [List.getD]
  | cons x t ih =>
    intro a d
    simp only [List.cons_append, List.length_cons, List.getD_cons_succ]
    exact ih a d

theorem getD_set_self {α : Type} :
    ∀ (l : List α) (i : Nat) (a : α) (d : α), i < l.length →
      (l.set i a).getD i d = a := by
  intro l
  induction l with
  | nil => intro i a d h; simp at h
  | cons x t ih =>
    intro i a d h
    cases i with
    | zero => simp [List.getD]
    | succ k =>
      simp only [List.set, List.getD_cons_succ]
      exact ih k a d (by simpa using h)

theorem getD_replicate_none {α : Type} :
    ∀ (n i : Nat), (List.replicate n (none : Option α)).getD i none = none := by
  intro n
  induction n with
  | zero => intro i; simp
  | succ m ih =>
    intro i
    cases i with
    | zero => simp [List.replicate, List.getD]
    | succ k => simp only [List.replicate, List.getD_cons_succ]; exact ih k

theorem exists16 (M : List ℚ) (h : M.length = 16) :
    ∃ a0 a1 a2 a3 a4 a5 a6 a7 a8 a9 a10 a11 a12 a13 a14 a15 : ℚ,
      M = [a0, a1, a2, a3, a4, a5, a6, a7, a8, a9, a10, a11, a12, a13, a14, a15] := by
  obtain ⟨a0, M, rfl⟩ := List.exists_of_length_succ M (show M.length = 16 from by simpa using h)
  replace h : M.length = 15 := by simpa using h
  obtain ⟨a1, M, rfl⟩ := List.exists_of_length_succ M (show M.length = 15 from by simpa using h)
  replace h : M.length = 14 := by simpa using h
  obtain ⟨a2, M, rfl⟩ := List.exists_of_length_succ M (show M.length = 14 from by simpa using h)
  replace h : M.length = 13 := by simpa using h
  obtain ⟨a3, M, rfl⟩ := List.exists_of_length_succ M (show M.length = 13 from by simpa using h)
  replace h : M.length = 12 := by simpa using h
  obtain ⟨a4, M, rfl⟩ := List.exists_of_length_succ M (show M.length = 12 from by simpa using h)
  replace h : M.length = 11 := by simpa using h
  obtain ⟨a5, M, rfl⟩ := List.exists_of_length_succ M (show M.length = 11 from by simpa using h)
  replace h : M.length = 10 := by simpa using h
  obtain ⟨a6, M, rfl⟩ := List.exists_of_length_succ M (show M.length = 10 from by simpa using h)
  replace h : M.length = 9 := by simpa using h
  obtain ⟨a7, M, rfl⟩ := List.exists_of_length_succ M (show M.length = 9 from by simpa using h)
  replace h : M.length = 8 := by simpa using h
  obtain ⟨a8, M, rfl⟩ := List.exists_of_length_succ M (show M.length = 8 from by simpa using h)
  replace h : M.length = 7 := by simpa using h
  obtain ⟨a9, M, rfl⟩ := List.exists_of_length_succ M (show M.length = 7 from by simpa using h)
  replace h : M.length = 6 := by simpa using h
  obtain ⟨a10, M, rfl⟩ := List.exists_of_length_succ M (show M.length = 6 from by simpa using h)
  replace h : M.length = 5 := by simpa using h
  obtain ⟨a11, M, rfl⟩ := List.exists_of_length_succ M (show M.length = 5 from by simpa using h)
  replace h : M.length = 4 := by simpa using h
  obtain ⟨a12, M, rfl⟩ := List.exists_of_length_succ M (show M.length = 4 from by simpa using h)
  replace h : M.length = 3 := by simpa using h
  obtain ⟨a13, M, rfl⟩ := List.exists_of_length_succ M (show M.length = 3 from by simpa using h)
  replace h : M.length = 2 := by simpa using h
  obtain ⟨a14, M, rfl⟩ := List.exists_of_length_succ M (show M.length = 2 from by simpa using h)
  replace h : M.length = 1 := by simpa using h
  obtain ⟨a15, M, rfl⟩ := List.exists_of_length_succ M (show M.length = 1 from by simpa using h)
  replace h : M.length = 0 := by simpa using h
  rw [List.length_eq_zero] at h
  subst h
  exact ⟨a0, a1, a2, a3, a4, a5, a6, a7, a8, a9, a10, a11, a12, a13, a14, a15, rfl⟩

theorem repairElems_id (M : List ℚ)
    (h0 : ¬(|M.getD 0 0| < mkRat 1 1000)) (h5 : ¬(|M.getD 5 0| < mkRat 1 1000)) :
    repairElems M = M := by
  rw [repairElems, repairFirst, if_neg h0, repairSecond, if_neg h5]

theorem repairElems_swap01 (M : List ℚ) (hlen : M.length = 16)
    (h0 : mkRat 1 1000 < |M.getD 0 0|) (h5 : ¬(|M.getD 5 0| < mkRat 1 1000))
    (h4 : |M.getD 4 0| < mkRat 1 1000) :
    repairElems (swapRows01 M) = M := by
  obtain ⟨a0, a1, a2, a3, a4, a5, a6, a7, a8, a9, a10, a11, a12, a13, a14, a15, rfl⟩ := exists16 M hlen
  have h0x : mkRat 1 1000 < |a0| := h0
  have h4x : |a4| < mkRat 1 1000 := h4
  have h5x : ¬(|a5| < mkRat 1 1000) := h5
  have h0g : |a0| > mkRat 1 1000 := h0x
  rw [swapRows01]
  rw [show swapSeg [a0, a1, a2, a3, a4, a5, a6, a7, a8, a9, a10, a11, a12, a13, a14, a15] 0 4 = [a4, a5, a6, a7, a0, a1, a2, a3, a8, a9, a10, a11, a12, a13, a14, a15] from rfl]
  rw [repairElems, repairFirst]
  rw [show (([a4, a5, a6, a7, a0, a1, a2, a3, a8, a9, a10, a11, a12, a13, a14, a15] : List ℚ).getD 0 0) = a4 from rfl,
    show (([a4, a5, a6, a7, a0, a1, a2, a3, a8, a9, a10, a11, a12, a13, a14, a15] : List ℚ).getD 4 0) = a0 from rfl]
  rw [if_pos h4x, if_pos h0g]
  rw [show swapSeg [a4, a5, a6, a7, a0, a1, a2, a3, a8, a9, a10, a11, a12, a13, a14, a15] 0 4 = [a0, a1, a2, a3, a4, a5, a6, a7, a8, a9, a10, a11, a12, a13, a14, a15] from rfl]
  rw [repairSecond]
  rw [show (([a0, a1, a2, a3, a4, a5, a6, a7, a8, a9, a10, a11, a12, a13, a14, a15] : List ℚ).getD 5 0) = a5 from rfl]
  rw [if_neg h5x]

theorem alloc_repair_read (s : Store) (a : List ℚ) :
    readArr (repairViewportMatrix (allocArr s a).1 (allocArr s a).2) (allocArr s a).2 =
      repairElems a := by
  show readArr
      (writeArr (s ++ [a]) s.length (repairElems (readArr (s ++ [a]) s.length)))
      s.length = _
  have hconc : readArr (s ++ [a]) s.length = a := getD_concat_self s a []
  rw [hconc]
  show (List.set (s ++ [a]) s.length (repairElems a)).getD s.length [] = _
  apply getD_set_self
  simp

/-- C9: for a 2-D model without a precomputed `pageToModelTransform`
override, asking for the transform of a viewport id that has no viewport
entry returns the identity matrix as the neutral value and leaves both the
model data (in particular the cache) and the array store untouched; the
function is total, so no error is raised. -/
theorem c9_missing_viewport_neutral (d : F2D) (s : Store) (vpId : Nat)
    (hov : d.pageToModelTransform = none)
    (hvp : d.viewports.getD vpId none = none) :
    getPageToModelTransform d s vpId = (identity4, d, s) := by
  simp only [getPageToModelTransform, hov, hvp]

theorem c9_missing_viewport_neutral_witness :
    ((⟨none, ⟨1, 1, 1, 1, 0, 0⟩, [], [], none⟩ : F2D).pageToModelTransform = none) ∧
      ((⟨none, ⟨1, 1, 1, 1, 0, 0⟩, [], [], none⟩ : F2D).viewports.getD 3 none = none) ∧
      getPageToModelTransform (⟨none, ⟨1, 1, 1, 1, 0, 0⟩, [], [], none⟩ : F2D) [] 3 =
        (identity4, ⟨none, ⟨1, 1, 1, 1, 0, 0⟩, [], [], none⟩, []) := by
  exact ⟨rfl, rfl,
    c9_missing_viewport_neutral ⟨none, ⟨1, 1, 1, 1, 0, 0⟩, [], [], none⟩ [] 3 rfl rfl⟩

/-- C10: computing the transform for a valid viewport id mutates only the
fresh copy produced by `vp.transform.slice()`: the stored raw transform
array behind `vp.transform` reads back unchanged, and the `viewports` list
and `page_dimensions` metadata of the model data are unchanged as well. -/
theorem c10_raw_transform_preserved (d : F2D) (s : Store) (vpId : Nat) (vp : Viewport)
    (hov : d.pageToModelTransform = none)
    (hvp : d.viewports.getD vpId none = some vp)
    (href : vp.transform < s.length) :
    readArr (getPageToModelTransform d s vpId).2.2 vp.transform =
        readArr s vp.transform ∧
      (getPageToModelTransform d s vpId).2.1.viewports = d.viewports ∧
      (getPageToModelTransform d s vpId).2.1.page_dimensions = d.page_dimensions := by
  simp only [getPageToModelTransform, hov, hvp]
  cases hcache :
      (d.viewportTransforms.getD (List.replicate d.viewports.length none)).getD vpId none with
  | some cached =>
    simp only [hcache]
    exact ⟨trivial, trivial, trivial⟩
  | none =>
    simp only [hcache]
    refine ⟨?_, trivial, trivial⟩
    show readArr
        (writeArr (s ++ [readArr s vp.transform]) s.length
          (repairElems (readArr (s ++ [readArr s vp.transform]) s.length)))
        vp.transform = readArr s vp.transform
    show (List.set (s ++ [readArr s vp.transform]) s.length
        (repairElems (readArr (s ++ [readArr s vp.transform]) s.length))).getD
        vp.transform [] = readArr s vp.transform
    rw [getD_set_ne _ _ _ _ _ (by omega)]
    exact getD_append_left s _ vp.transform [] href

theorem c10_raw_transform_preserved_witness :
    ((⟨none, ⟨1, 1, 1, 1, 0, 0⟩, [some ⟨0⟩], [], none⟩ : F2D).pageToModelTransform
        = none) ∧
      ((⟨none, ⟨1, 1, 1, 1, 0, 0⟩, [some ⟨0⟩], [], none⟩ : F2D).viewports.getD 0 none
        = some ⟨0⟩) ∧
      ((0 : Nat) < 1) ∧
      readArr
          (getPageToModelTransform
            (⟨none, ⟨1, 1, 1, 1, 0, 0⟩, [some ⟨0⟩], [], none⟩ : F2D)
            [[1, 0, 0, 0, 0, 1, 0, 0, 0, 0, 1, 0, 0, 0, 0, 1]] 0).2.2 0 =
        readArr [[1, 0, 0, 0, 0, 1, 0, 0, 0, 0, 1, 0, 0, 0, 0, 1]] 0 := by
  refine ⟨rfl, rfl, by decide, ?_⟩
  exact (c10_raw_transform_preserved
    ⟨none, ⟨1, 1, 1, 1, 0, 0⟩, [some ⟨0⟩], [], none⟩
    [[1, 0, 0, 0, 0, 1, 0, 0, 0, 0, 1, 0, 0, 0, 0, 1]] 0 ⟨0⟩ rfl rfl
    (by decide)).1

/-- C3 (amended): when the raw transform's row-0 pivot strictly exceeds the
1e-3 threshold (strictness is what makes the swap-back branch fire), its
position-5 pivot is at least the threshold, and the row-1 pivot is below
the threshold, the page-to-model transform computed from the row-0/row-1
swapped raw transform equals the one computed from the raw transform
itself: the repair restores the row order before inversion. -/
theorem c3_rowswap_equivalent (d : F2D) (s1 s2 : Store) (vpId : Nat) (vp : Viewport)
    (M : List ℚ)
    (hov : d.pageToModelTransform = none)
    (hvp : d.viewports.getD vpId none = some vp)
    (hvts : d.viewportTransforms = none)
    (hm1 : readArr s1 vp.transform = M)
    (hm2 : readArr s2 vp.transform = swapRows01 M)
    (hlen : M.length = 16)
    (h0 : mkRat 1 1000 < |M.getD 0 0|)
    (h5 : mkRat 1 1000 ≤ |M.getD 5 0|)
    (h4 : |M.getD 4 0| < mkRat 1 1000) :
    (getPageToModelTransform d s1 vpId).1 = (getPageToModelTransform d s2 vpId).1 := by
  have h5n : ¬(|M.getD 5 0| < mkRat 1 1000) := not_lt.mpr h5
  have h0n : ¬(|M.getD 0 0| < mkRat 1 1000) := not_lt.mpr (le_of_lt h0)
  simp only [getPageToModelTransform, hov, hvp, hvts]
  rw [show (none : Option (List (Option Mat4))).getD
      (List.replicate d.viewports.length none) =
      List.replicate d.viewports.length none from rfl]
  rw [getD_replicate_none]
  simp only [hm1, hm2]
  rw [alloc_repair_read s1 M, alloc_repair_read s2 (swapRows01 M),
    repairElems_id M h0n h5n, repairElems_swap01 M hlen h0 h5n h4]

/-- A 2-D payload with one real viewport (reference 0) and trivial page
dimensions (the page→logical matrix is then the identity). -/
def c3data : F2D := ⟨none, ⟨1, 1, 1, 1, 0, 0⟩, [some ⟨0⟩], [], none⟩

/-- Well-formed raw transform with row-0 pivot 1 (strictly above the
threshold). -/
def c3wmat : List ℚ := [1, 0, 0, 0, 0, 1, 0, 0, 0, 0, 1, 0, 0, 0, 0, 1]

theorem c3_rowswap_equivalent_witness :
    (c3data.pageToModelTransform = none) ∧
      (c3data.viewports.getD 0 none = some ⟨0⟩) ∧
      (c3data.viewportTransforms = none) ∧
      (readArr [c3wmat] 0 = c3wmat) ∧
      (readArr [swapRows01 c3wmat] 0 = swapRows01 c3wmat) ∧
      (c3wmat.length = 16) ∧
      (mkRat 1 1000 < |c3wmat.getD 0 0|) ∧
      (mkRat 1 1000 ≤ |c3wmat.getD 5 0|) ∧
      (|c3wmat.getD 4 0| < mkRat 1 1000) ∧
      (getPageToModelTransform c3data [c3wmat] 0).1 =
        (getPageToModelTransform c3data [swapRows01 c3wmat] 0).1 := by
  refine ⟨rfl, rfl, rfl, rfl, rfl, by decide, by decide, by decide, by decide, ?_⟩
  exact c3_rowswap_equivalent c3data [c3wmat] [swapRows01 c3wmat] 0 ⟨0⟩ c3wmat
    rfl rfl rfl rfl rfl (by decide) (by decide) (by decide) (by decide)

/-- Raw transform whose row-0 pivot is EXACTLY the 1e-3 threshold: it
satisfies the claim's non-strict magnitude bound. -/
def c3cmat : List ℚ := [mkRat 1 1000, 0, 0, 0, 0, 1, 0, 0, 0, 0, 1, 0, 0, 0, 0, 1]

/-- C3 counterexample: with the row-0 pivot exactly at the threshold the
claim's hypotheses (magnitudes >= 1e-3 at positions 0 and 5, below 1e-3 at
position 4) hold, yet the swapped-input repair takes the row-0/row-2
branch (`> 1e-3` fails at equality), and the two resulting page-to-model
matrices differ. -/
theorem c3_counterexample :
    (mkRat 1 1000 ≤ |c3cmat.getD 0 0|) ∧
      (mkRat 1 1000 ≤ |c3cmat.getD 5 0|) ∧
      (|c3cmat.getD 4 0| < mkRat 1 1000) ∧
      (getPageToModelTransform c3data [c3cmat] 0).1 ≠
        (getPageToModelTransform c3data [swapRows01 c3cmat] 0).1 := by
  exact ⟨by decide, by decide, by decide, by decide⟩

/-- The contour-reorganisation loop shared by `pointInClip` and `getClip`:
contour `k` receives the next `contourCounts[k]` consecutive point
indices. -/
def decodeContours (counts : List Nat) : List (List Nat) :=
  (counts.foldl
    (fun (acc : List (List Nat) × Nat) k => (acc.1 ++ [List.range' acc.2 k], acc.2 + k))
    ([], 0)).1

/-- The point-reorganisation loop: consecutive pairs of the flat `points`
array become 2-D points (an odd trailing coordinate would pair with
`undefined` in JavaScript; it is completed with 0 here, a case no claim
depends on). -/
def decodePoints : List ℚ → List (ℚ × ℚ)
  | x :: y :: rest => (x, y) :: decodePoints rest
  | [x] => [(x, 0)]
  | [] => []

/-- The horizontal-ray crossing test `pointInContour(x, y, cntr, pts)`:
fold over the contour's indices carrying (inside flag, previous y-side
flag, previous vertex), seeded with the contour's last vertex. -/
def pointInContour (x y : ℚ) (cntr : List Nat) (pts : List (ℚ × ℚ)) : Bool :=
  let v0 := pts.getD (cntr.getLast?.getD 0) (0, 0)
  (cntr.foldl
    (fun (st : Bool × Bool × (ℚ × ℚ)) j =>
      let v1 := pts.getD j (0, 0)
      let yflag1 := decide (v1.2 ≥ y)
      let inside :=
        if st.2.1 ≠ yflag1 then
          if decide ((v1.2 - y) * (st.2.2.1 - v1.1) ≥ (v1.1 - x) * (st.2.2.2 - v1.2))
              = yflag1 then
            !st.1
          else st.1
        else st.1
      (inside, yflag1, v1))
    (false, decide (v0.2 ≥ y), v0)).1

/-- `Model.prototype.pointInPolygon`: XOR of the per-contour crossing
tests. -/
def pointInPolygon (x y : ℚ) (contours : List (List Nat)) (pts : List (ℚ × ℚ)) : Bool :=
  contours.foldl (fun inside c => if pointInContour x y c pts then !inside else inside)
    false

/-- Containment of a point in the decoded region of clip `i`, exactly the
test `pointInClip` performs for each candidate id. -/
def clipContainsPoint (clips : List Clip) (i : Nat) (p : ℚ × ℚ) : Bool :=
  let c := clips.getD i ⟨[], []⟩
  pointInPolygon p.1 p.2 (decodeContours c.contourCounts) (decodePoints c.points)

/-- `Model.prototype.pointInClip(point, vpId)`: scan clip ids 1 .. length-1
(id 0, paper space, is excluded by the loop start), skip the query's own
id, and push each id whose region contains the point. -/
def pointInClip (d : F2D) (p : ℚ × ℚ) (vpId : Nat) : List Nat :=
  (List.range' 1 (d.clips.length - 1)).foldl
    (fun acc i =>
      if i = vpId then acc
      else if clipContainsPoint d.clips i p then acc ++ [i] else acc)
    []

theorem pointInClip_foldl (d : F2D) (p : ℚ × ℚ) (v : Nat) :
    ∀ (l : List Nat) (acc : List Nat),
      (l.foldl
        (fun acc i =>
          if i = v then acc
          else if clipContainsPoint d.clips i p then acc ++ [i] else acc)
        acc) =
        acc ++ l.filter (fun i => decide (i ≠ v) && clipContainsPoint d.clips i p) := by
  intro l
  induction l with
  | nil => intro acc; simp
  | cons i rest ih =>
    intro acc
    rw [List.foldl_cons, List.filter_cons]
    by_cases hv : i = v
    · rw [if_pos hv, ih]
      simp [hv]
    · by_cases hcont : clipContainsPoint d.clips i p = true
      · rw [if_neg hv, if_pos hcont, ih]
        simp [hv, hcont]
      · rw [if_neg hv, if_neg hcont, ih]
        simp [hv, hcont]

/-- C8: `pointInClip(p, v)` returns exactly the ids `i` among 1 ..
clips.length-1 with `i ≠ v` whose decoded clip region contains `p` (the
filter equality), in strictly ascending order, and in particular never
contains the query id `v` and never contains 0 (paper space). -/
theorem c8_pointinclip_spec (d : F2D) (p : ℚ × ℚ) (v : Nat) :
    pointInClip d p v =
        (List.range' 1 (d.clips.length - 1)).filter
          (fun i => decide (i ≠ v) && clipContainsPoint d.clips i p) ∧
      List.Sorted (· < ·) (pointInClip d p v) ∧
      v ∉ pointInClip d p v ∧
      (0 : Nat) ∉ pointInClip d p v := by
  have heq := pointInClip_foldl d p v (List.range' 1 (d.clips.length - 1)) []
  have heq2 : pointInClip d p v =
      (List.range' 1 (d.clips.length - 1)).filter
        (fun i => decide (i ≠ v) && clipContainsPoint d.clips i p) := by
    rw [pointInClip, heq]
    simp
  refine ⟨heq2, ?_, ?_, ?_⟩
  · rw [heq2]
    exact (List.pairwise_lt_range' 1 (d.clips.length - 1)).filter _
  · rw [heq2]
    intro hmem
    have := List.of_mem_filter hmem
    simp at this
  · rw [heq2]
    intro hmem
    have h1 := List.mem_range'_1.mp (List.mem_of_mem_filter hmem)
    omega
